import Mathlib

/-!
Verification development for the cc-custom-integration repository: an
interactive terminal front-end for a streaming CLI agent.  The modules
embedded here, translated from the Go sources:

* `internal/claude/session.go` — the stream decoder and session/statistics
  accumulator (`SessionManager`, `processJSONLine`, `updateSessionStats`,
  `StartNewConversation`, `ProcessStream`).
* `internal/app` (event bus file) — `EventBus.HandleEvent`, `Subscribe`.
* `internal/app` (application file) — the bounded message history of
  `Application.Update`, `renderConversationPanel`, and the modal line
  editor (`insertChar`, `deleteWord`, `moveWordForward`,
  `moveWordBackward`, and the Normal-mode key dispatch).

Modelling conventions:

* Go `int` fields become `Int`; Go `float64` cost is modelled as an exact
  rational `ℚ` (the accumulator only ever adds these values).
* `time.Time` fields (timestamps on events and messages) carry no
  behaviourally relevant information for the embedded operations and are
  omitted.
* Go strings manipulated by byte index in the editor are modelled as
  `List Char` (the editor is exercised on single-byte characters).
* JSON decoding is external to the properties considered: a stream line is
  embedded as the decoded shape the Go code switches on (`DecodedLine`),
  with explicit constructors for the decode failures the code handles.
* A Go slice-index panic is modelled by `Option`: the indexing and slicing
  helpers return `none` exactly when the Go expression would panic.
-/

namespace CCI

/-- Token usage counters (Go struct `Usage`, session.go / types file). -/
structure Usage where
  inputTokens : Int
  cacheCreationInputTokens : Int
  cacheReadInputTokens : Int
  outputTokens : Int
deriving Repr, DecidableEq

/-- The decoded `result` / generic stream message (Go struct `Message`).
`totalCostUSD` is Go `float64`, modelled as an exact rational. -/
structure Msg where
  subtype : String
  sessionID : String
  isError : Bool
  result : String
  durationMs : Int
  numTurns : Int
  totalCostUSD : ℚ
  usage : Option Usage
deriving Repr, DecidableEq

/-- One element of an assistant message's decoded `content` array.  The Go
code reads `item["type"]` and then the `text` / `name` string field;
`other` covers every element it silently skips (unknown type, or the
expected field missing / not a string). -/
inductive ContentItem where
  | text (s : String)
  | toolUse (toolName : String)
  | other
deriving Repr, DecidableEq

/-- Decoded assistant message (Go struct `AssistantMessage`).  `content`
is `none` when the nested content array fails to unmarshal as a list. -/
structure AssistantMessage where
  id : String
  content : Option (List ContentItem)
  stopReason : String
deriving Repr, DecidableEq

/-- Decoded `system`/`init` payload (Go struct `SystemInit`). -/
structure SystemInit where
  cwd : String
  sessionID : String
  tools : List String
  model : String
deriving Repr, DecidableEq

/-- Event kinds emitted by the session manager (Go `EventType` constants). -/
inductive EventType where
  | sessionInit
  | sessionUpdate
  | messageReceived
  | toolActivity
  | error
  | statsUpdate
deriving Repr, DecidableEq

/-- A processed message for UI display (Go struct `ConversationMessage`);
the `time.Time` timestamp is omitted. -/
structure ConversationMessage where
  id : String
  type : String
  content : String
  isError : Bool
  toolName : String
deriving Repr, DecidableEq

/-- Snapshot returned by `getCurrentSessionInfo` (Go struct `SessionInfo`);
the `Duration` / `CreatedAt` time fields are omitted. -/
structure SessionInfo where
  id : String
  model : String
  isActive : Bool
  turnCount : Int
  totalCost : ℚ
  usage : Usage
deriving Repr, DecidableEq

/-- Snapshot returned by `getSessionStats` (Go struct `SessionStats`);
the `ConversationStart` time field is omitted. -/
structure SessionStats where
  cumulativeDuration : Int
  cumulativeTurns : Int
  cumulativeCost : ℚ
  cumulativeUsage : Usage
deriving Repr, DecidableEq

/-- Payload of an emitted event (Go `interface{}` data field, restricted to
the values the session manager actually passes to `emitEvent`).  Error
values (`error`) are represented by their message string. -/
inductive EventData where
  | init (i : SystemInit)
  | str (s : String)
  | convMsg (m : ConversationMessage)
  | sessionInfo (si : SessionInfo)
  | stats (st : SessionStats)
  | err (msg : String)
deriving Repr, DecidableEq

/-- An emitted event (Go struct `Event`); the timestamp is omitted. -/
structure Event where
  type : EventType
  data : EventData
deriving Repr, DecidableEq

/-- The session accumulator state (Go struct `SessionManager`); the
`ConversationStart` time field and the registered handler list are
omitted — emission is modelled by returning the list of events passed to
`emitEvent`, in call order. -/
structure SessionManager where
  currentSessionID : String
  model : String
  sessionChain : List String
  cumulativeDuration : Int
  cumulativeTurns : Int
  cumulativeCost : ℚ
  cumulativeUsage : Usage
deriving Repr, DecidableEq

/-- `NewSessionManager` (session.go): all fields start zero/empty. -/
def NewSessionManager : SessionManager :=
  { currentSessionID := ""
    model := ""
    sessionChain := []
    cumulativeDuration := 0
    cumulativeTurns := 0
    cumulativeCost := 0
    cumulativeUsage := ⟨0, 0, 0, 0⟩ }

/-- One raw stream line as the Go type switch in `processJSONLine` sees it
after JSON decoding.  `parseFail` is a line whose top-level unmarshal
fails; the `Option` payloads are `none` when the second-stage unmarshal of
that line fails.  The `user` constructor records the error flag of the
embedded tool result (a field present on the wire that the implementation
never inspects). -/
inductive DecodedLine where
  | parseFail (raw : String)
  | systemInit (init : Option SystemInit)
  | systemOther
  | assistant (msg : Option AssistantMessage)
  | user (resultIsError : Bool)
  | result (msg : Option Msg)
  | otherType
deriving Repr, DecidableEq

/-- Events emitted for one element of an assistant content array
(the loop body of `processAssistantMessage`, session.go). -/
def processContentItem (id : String) : ContentItem → List Event
  | .text s =>
      [⟨.messageReceived, .convMsg ⟨id, "assistant", s, false, ""⟩⟩]
  | .toolUse toolName =>
      [⟨.toolActivity, .str ("executing_tool_" ++ toolName)⟩,
       ⟨.messageReceived,
        .convMsg ⟨id, "tool_use", "Using tool: " ++ toolName, false, toolName⟩⟩]
  | .other => []

/-- `processAssistantMessage` (session.go): iterate the decoded content
list; a content unmarshal failure emits nothing. -/
def processAssistantMessage (m : AssistantMessage) : List Event :=
  match m.content with
  | none => []
  | some items => (items.map (processContentItem m.id)).flatten

/-- `updateSessionStats` (session.go): replace the current session id,
append it to the chain, and add this result's counters to the cumulative
totals (token counters only when a `usage` object is present). -/
def updateSessionStats (sm : SessionManager) (msg : Msg) : SessionManager :=
  { sm with
    currentSessionID := msg.sessionID
    sessionChain := sm.sessionChain ++ [msg.sessionID]
    cumulativeDuration := sm.cumulativeDuration + msg.durationMs
    cumulativeTurns := sm.cumulativeTurns + msg.numTurns
    cumulativeCost := sm.cumulativeCost + msg.totalCostUSD
    cumulativeUsage :=
      match msg.usage with
      | none => sm.cumulativeUsage
      | some u =>
          ⟨sm.cumulativeUsage.inputTokens + u.inputTokens,
           sm.cumulativeUsage.cacheCreationInputTokens + u.cacheCreationInputTokens,
           sm.cumulativeUsage.cacheReadInputTokens + u.cacheReadInputTokens,
           sm.cumulativeUsage.outputTokens + u.outputTokens⟩ }

/-- `getCurrentSessionInfo` (session.go), time fields omitted. -/
def getCurrentSessionInfo (sm : SessionManager) : SessionInfo :=
  { id := sm.currentSessionID
    model := sm.model
    isActive := true
    turnCount := sm.cumulativeTurns
    totalCost := sm.cumulativeCost
    usage := sm.cumulativeUsage }

/-- `getSessionStats` (session.go), time field omitted. -/
def getSessionStats (sm : SessionManager) : SessionStats :=
  { cumulativeDuration := sm.cumulativeDuration
    cumulativeTurns := sm.cumulativeTurns
    cumulativeCost := sm.cumulativeCost
    cumulativeUsage := sm.cumulativeUsage }

/-- `processJSONLine` (session.go): the per-line type switch.  Returns the
updated state and the events passed to `emitEvent`, in call order. -/
def processJSONLine (sm : SessionManager) : DecodedLine → SessionManager × List Event
  | .parseFail raw => (sm, [⟨.error, .err ("parse error: " ++ raw)⟩])
  | .systemInit none => (sm, [])
  | .systemInit (some init) =>
      ({ sm with currentSessionID := init.sessionID, model := init.model },
       [⟨.sessionInit, .init init⟩])
  | .systemOther => (sm, [])
  | .assistant none =>
      (sm, [⟨.error, .err "failed to parse assistant message"⟩])
  | .assistant (some m) => (sm, processAssistantMessage m)
  | .user _ => (sm, [⟨.toolActivity, .str "tool_execution_progress"⟩])
  | .result none => (sm, [])
  | .result (some msg) =>
      if msg.subtype = "success" then
        let sm1 := updateSessionStats sm msg
        (sm1, [⟨.sessionUpdate, .sessionInfo (getCurrentSessionInfo sm1)⟩,
               ⟨.statsUpdate, .stats (getSessionStats sm1)⟩])
      else if msg.isError then
        (sm, [⟨.error, .err ("result error: " ++ msg.result)⟩])
      else (sm, [])
  | .otherType => (sm, [])

/-- The decoded-line iteration of `ProcessStream` (session.go): process
lines in order, collecting states and emitted events. -/
def processLines (sm : SessionManager) : List DecodedLine → SessionManager × List Event
  | [] => (sm, [])
  | l :: ls =>
      let r1 := processJSONLine sm l
      let r2 := processLines r1.1 ls
      (r2.1, r1.2 ++ r2.2)

/-- `StartNewConversation` (session.go): emit a conversation-ended update
when a chain exists, reset every accumulator field, emit the
new-conversation notice. -/
def StartNewConversation (sm : SessionManager) : SessionManager × List Event :=
  let evs :=
    (if sm.sessionChain.length > 0
     then [⟨EventType.sessionUpdate, EventData.str "conversation_ended"⟩]
     else [])
    ++ [⟨EventType.sessionInit, EventData.str "new_conversation_started"⟩]
  ({ sm with
      currentSessionID := ""
      sessionChain := []
      cumulativeDuration := 0
      cumulativeTurns := 0
      cumulativeCost := 0
      cumulativeUsage := ⟨0, 0, 0, 0⟩ }, evs)

/-- Go `unicode.IsSpace`, the predicate underlying `strings.TrimSpace`:
ASCII whitespace plus the Unicode White_Space code points. -/
def isGoSpace (c : Char) : Bool :=
  c = ' ' || c = '\t' || c = '\n' || c = '\x0b' || c = '\x0c' || c = '\r'
  || c = '\u0085' || c = '\u00A0' || c = '\u1680'
  || ('\u2000' ≤ c && c ≤ '\u200A')
  || c = '\u2028' || c = '\u2029' || c = '\u202F' || c = '\u205F' || c = '\u3000'

/-- The guard `strings.TrimSpace(line) == ""` of `ProcessStream`:
true exactly when every character of the line is whitespace. -/
def isBlankLine (line : String) : Bool :=
  line.toList.all isGoSpace

/-- One iteration of the `ProcessStream` scanner loop (session.go):
whitespace-only lines are skipped before any decoding; other lines go
through `processJSONLine`.  `decode` abstracts the JSON decoder. -/
def processStreamLine (decode : String → DecodedLine) (sm : SessionManager)
    (line : String) : SessionManager × List Event :=
  if isBlankLine line then (sm, [])
  else processJSONLine sm (decode line)

/-- `ProcessStream` (session.go) over a finished stream of raw lines. -/
def processStream (decode : String → DecodedLine) (sm : SessionManager) :
    List String → SessionManager × List Event
  | [] => (sm, [])
  | l :: ls =>
      let r1 := processStreamLine decode sm l
      let r2 := processStream decode r1.1 ls
      (r2.1, r1.2 ++ r2.2)

/-! ## Event bus (`internal/app`, event bus file) -/

/-- A bounded subscriber queue: a Go buffered channel of the capacity
passed to `Subscribe`, holding its undelivered events in arrival order. -/
structure Queue where
  capacity : Nat
  buf : List Event
deriving Repr, DecidableEq

/-- The event bus.  `subscribers` models the Go
`map[claude.EventType][]chan claude.Event` (`none` = key absent);
`program` models the attached bubbletea program as its inbound message
queue (`none` = no program set).  The cancellation context is modelled in
its quiescent (not yet cancelled) state, the only state in which delivery
happens at all. -/
structure EventBus where
  subscribers : EventType → Option (List Queue)
  program : Option (List Event)

/-- `EventBus.Subscribe`: append a fresh empty channel of the requested
capacity to the entry for `t` (creating the entry when absent). -/
def Subscribe (bus : EventBus) (t : EventType) (bufferSize : Nat) : EventBus :=
  { bus with
    subscribers := fun u =>
      if u = t then some ((bus.subscribers t).getD [] ++ [⟨bufferSize, []⟩])
      else bus.subscribers u }

/-- The non-blocking send of `HandleEvent`'s subscriber loop: enqueue when
the channel has room, otherwise drop the event for that subscriber. -/
def trySend (q : Queue) (e : Event) : Queue :=
  if q.buf.length < q.capacity then { q with buf := q.buf ++ [e] } else q

/-- `EventBus.HandleEvent`: look up the subscriber list for the event's
type; when the key is absent, return at once — skipping the program send
below.  Otherwise deliver best-effort to each subscriber queue, then
forward the event to the bubbletea program when one is attached. -/
def HandleEvent (bus : EventBus) (e : Event) : EventBus :=
  match bus.subscribers e.type with
  | none => bus
  | some qs =>
      { subscribers := fun t =>
          if t = e.type then some (qs.map (fun q => trySend q e))
          else bus.subscribers t
        program := bus.program.map (fun msgs => msgs ++ [e]) }

/-! ## Bounded message history (`Application.Update`, `MessageStreamMsg`) -/

/-- The history mutation of the `MessageStreamMsg` branch of
`Application.Update`: append the message, then keep only the last 500
entries.  (The branch additionally recomputes the scroll position, which
does not touch the message list.) -/
def appendBounded (hist : List ConversationMessage) (m : ConversationMessage) :
    List ConversationMessage :=
  let h := hist ++ [m]
  if 500 < h.length then h.drop (h.length - 500) else h

/-- Delivering a sequence of conversation messages to `Application.Update`
in order. -/
def appendAll (hist : List ConversationMessage)
    (msgs : List ConversationMessage) : List ConversationMessage :=
  msgs.foldl appendBounded hist

/-! ## Conversation panel renderer (`renderConversationPanel`) -/

/-- The spacing loop of `renderConversationPanel`: concatenate each
message's display lines, inserting one blank line between consecutive
messages (none after the last). -/
def joinWithSpacers : List (List String) → List String
  | [] => []
  | [b] => b
  | b :: bs => b ++ [""] ++ joinWithSpacers bs

/-- The padding loops of `renderConversationPanel`: append blank lines
until the list reaches length `n` (no-op when already long enough). -/
def padTo (l : List String) (n : Nat) : List String :=
  l ++ List.replicate (n - l.length) ""

/-- The placeholder returned when no messages exist. -/
def noMessagesPlaceholder : String :=
  "No messages yet. Press Enter to start a conversation."

/-- The placeholder returned when the panel height is below 3. -/
def windowTooSmallPlaceholder : String := "Window too small"

/-- `renderConversationPanel` (application file).  `fmtMsg` abstracts the
per-message formatting pipeline (markdown renderer / word wrap / lipgloss
styling — all external collaborators per the spec), standing for
`strings.Split(formattedMsg, "\n")`.  `scrollPos` is the
`a.scrollPosition` field on entry; the clamped value the method stores
back is returned alongside the display lines.  The Go `scrollPosition < 0`
guard is subsumed by `Nat`. -/
def renderConversationPanel (fmtMsg : ConversationMessage → List String)
    (messages : List ConversationMessage) (height : Nat) (scrollPos : Nat) :
    List String × Nat :=
  if messages.length = 0 then ([noMessagesPlaceholder], scrollPos)
  else
    let allLines := joinWithSpacers (messages.map fmtMsg)
    let totalLines := allLines.length
    if height < 3 then ([windowTooSmallPlaceholder], scrollPos)
    else
      let scrollIndicatorLines := 2
      let contentViewportHeight := height - scrollIndicatorLines
      let needsScrollIndicator := contentViewportHeight < totalLines
      let maxScroll :=
        if contentViewportHeight < totalLines
        then totalLines - contentViewportHeight else 0
      let sp := if maxScroll < scrollPos then maxScroll else scrollPos
      let displayLines :=
        if totalLines ≤ contentViewportHeight then allLines
        else (allLines.drop sp).take contentViewportHeight
      let withIndicator :=
        if needsScrollIndicator
        then padTo displayLines contentViewportHeight ++ [""]
        else displayLines
      let padded := padTo withIndicator height
      let capped := if height < padded.length then padded.take height else padded
      (capped, sp)

/-! ## Modal line editor (`internal/app`, application file)

Go slices a byte-indexed string; the buffer is modelled as `List Char`.
`s[:i]` / `s[i:]` panic when `i > len(s)`, and `s[i]` panics when
`i ≥ len(s)`; the helpers below return `none` exactly in those cases, so
an operation evaluating to `none` models a Go runtime panic. -/

/-- Go slice expression `buf[:i]`. -/
def sliceTo (buf : List Char) (i : Nat) : Option (List Char) :=
  if i ≤ buf.length then some (buf.take i) else none

/-- Go slice expression `buf[i:]`. -/
def sliceFrom (buf : List Char) (i : Nat) : Option (List Char) :=
  if i ≤ buf.length then some (buf.drop i) else none

/-- The vim-like input mode (Go `InputMode`). -/
inductive InputMode where
  | normal
  | insert
deriving Repr, DecidableEq

/-- The editor-relevant fields of the Go `Application` struct. -/
structure EditorState where
  inputBuffer : List Char
  cursorPos : Nat
  inputMode : InputMode
  commandBuffer : String
deriving Repr, DecidableEq

/-- Length of the longest prefix whose characters all satisfy `p`. -/
def countWhile (p : Char → Bool) : List Char → Nat
  | [] => 0
  | ch :: rest => if p ch then countWhile p rest + 1 else 0

/-- Loop `for c < len(buf) && buf[c] != ' ' { c++ }` (used by
`moveWordForward` and `deleteWord`): the cursor advances past the
consecutive non-space characters from position `c` on, stopping at the
end of the buffer; the `&&` short-circuit keeps every index access in
bounds. -/
def skipWord (buf : List Char) (c : Nat) : Nat :=
  c + countWhile (fun ch => ch ≠ ' ') (buf.drop c)

/-- Loop `for c < len(buf) && buf[c] == ' ' { c++ }` (`moveWordForward`):
the cursor advances past the consecutive spaces from position `c` on. -/
def skipSpaces (buf : List Char) (c : Nat) : Nat :=
  c + countWhile (fun ch => ch = ' ') (buf.drop c)

/-- Loop `for c > 0 && buf[c] == ' ' { c-- }` (`moveWordBackward`),
recursing on the decreasing cursor.  The guard does not bound `c` from
above, so the access `buf[c]` panics (`none`) when `c ≥ len(buf)`. -/
def backSkipSpaces (buf : List Char) : Nat → Option Nat
  | 0 => some 0
  | c + 1 =>
      match buf[c + 1]? with
      | none => none
      | some ch => if ch = ' ' then backSkipSpaces buf c else some (c + 1)

/-- Loop `for c > 0 && buf[c-1] != ' ' { c-- }` (`moveWordBackward`). -/
def backToWordStart (buf : List Char) : Nat → Option Nat
  | 0 => some 0
  | c + 1 =>
      match buf[c]? with
      | none => none
      | some ch => if ch ≠ ' ' then backToWordStart buf c else some (c + 1)

/-- `insertChar` (application file): append when the cursor sits at or
past the end, otherwise splice at the cursor and advance it. -/
def insertCharOp (s : EditorState) (ch : Char) : Option EditorState :=
  if s.inputBuffer.length ≤ s.cursorPos then
    some { s with
      inputBuffer := s.inputBuffer ++ [ch]
      cursorPos := (s.inputBuffer ++ [ch]).length }
  else do
    let pre ← sliceTo s.inputBuffer s.cursorPos
    let post ← sliceFrom s.inputBuffer s.cursorPos
    some { s with
      inputBuffer := pre ++ [ch] ++ post
      cursorPos := s.cursorPos + 1 }

/-- The `x` branch of `handleKeyPress`: delete the character under the
cursor (guarded by `cursorPos < len`), then clamp the cursor to the last
index when it fell off the end of a non-empty buffer. -/
def deleteCharOp (s : EditorState) : Option EditorState :=
  if s.cursorPos < s.inputBuffer.length then do
    let pre ← sliceTo s.inputBuffer s.cursorPos
    let post ← sliceFrom s.inputBuffer (s.cursorPos + 1)
    let buf := pre ++ post
    let cur :=
      if buf.length ≤ s.cursorPos ∧ 0 < buf.length then buf.length - 1
      else s.cursorPos
    some { s with inputBuffer := buf, cursorPos := cur }
  else some s

/-- `deleteWord` (application file): from the cursor, skip to the end of
the current word, take one trailing space when present, splice the range
out, restore the cursor to the deletion start, then clamp. -/
def deleteWordOp (s : EditorState) : Option EditorState :=
  if s.inputBuffer.length ≤ s.cursorPos then some s
  else
    let startPos := s.cursorPos
    let c1 := skipWord s.inputBuffer s.cursorPos
    -- Go `c1 < len(buf) && buf[c1] == ' '`: the short-circuit guard plus
    -- index access is exactly a `get?` probe.
    let c2 := if s.inputBuffer[c1]? = some ' ' then c1 + 1 else c1
    do
      let pre ← sliceTo s.inputBuffer startPos
      let post ← sliceFrom s.inputBuffer c2
      let buf := pre ++ post
      let cur :=
        if buf.length ≤ startPos ∧ 0 < buf.length then buf.length - 1
        else startPos
      some { s with inputBuffer := buf, cursorPos := cur }

/-- `moveWordForward` (application file): skip the current word, skip the
following spaces, clamp to the last index when the end was reached. -/
def moveWordForwardOp (s : EditorState) : Option EditorState :=
  if s.inputBuffer.length ≤ s.cursorPos then some s
  else
    let c1 := skipWord s.inputBuffer s.cursorPos
    let c2 := skipSpaces s.inputBuffer c1
    let c3 :=
      if s.inputBuffer.length ≤ c2 ∧ 0 < s.inputBuffer.length
      then s.inputBuffer.length - 1 else c2
    some { s with cursorPos := c3 }

/-- `moveWordBackward` (application file): step back once, skip spaces
backward, then run back to the start of the word. -/
def moveWordBackwardOp (s : EditorState) : Option EditorState :=
  if s.cursorPos ≤ 0 then some s
  else do
    let c1 ← backSkipSpaces s.inputBuffer (s.cursorPos - 1)
    let c2 ← backToWordStart s.inputBuffer c1
    some { s with cursorPos := c2 }

/-- The `0` branch of `handleKeyPress`: cursor to line start. -/
def lineStartOp (s : EditorState) : Option EditorState :=
  some { s with cursorPos := 0 }

/-- The dollar-key branch of `handleKeyPress`: cursor to the last index
(`len-1`), or 0 on an empty buffer. -/
def lineEndOp (s : EditorState) : Option EditorState :=
  some { s with
    cursorPos :=
      if 0 < s.inputBuffer.length then s.inputBuffer.length - 1 else 0 }

/-- The Normal-mode key dispatch of `handleKeyPress` (application file),
for an active input line in Normal mode; keys are matched by their
`msg.String()` value.  Unlisted keys leave the state unchanged. -/
def handleNormalKey (s : EditorState) (key : String) : Option EditorState :=
  match key with
  | "i" => some { s with inputMode := .insert, commandBuffer := "" }
  | "a" =>
      let cur :=
        if s.cursorPos < s.inputBuffer.length then s.cursorPos + 1
        else s.cursorPos
      some { s with inputMode := .insert, cursorPos := cur, commandBuffer := "" }
  | "A" =>
      some { s with
        inputMode := .insert
        cursorPos := s.inputBuffer.length
        commandBuffer := "" }
  | "x" => deleteCharOp s
  | "d" =>
      if s.commandBuffer = "d" then
        some { s with inputBuffer := [], cursorPos := 0, commandBuffer := "" }
      else some { s with commandBuffer := "d" }
  | "c" =>
      if s.commandBuffer = "c" then
        some { s with
          inputBuffer := []
          cursorPos := 0
          inputMode := .insert
          commandBuffer := "" }
      else some { s with commandBuffer := "c" }
  | "w" =>
      if s.commandBuffer = "d" then
        (deleteWordOp s).map (fun t => { t with commandBuffer := "" })
      else if s.commandBuffer = "c" then
        (deleteWordOp s).map
          (fun t => { t with inputMode := .insert, commandBuffer := "" })
      else moveWordForwardOp s
  | "b" => moveWordBackwardOp s
  | "0" => lineStartOp s
  | "left" =>
      some { s with
        cursorPos := if 0 < s.cursorPos then s.cursorPos - 1 else s.cursorPos }
  | "right" =>
      some { s with
        cursorPos :=
          if s.cursorPos + 1 < s.inputBuffer.length then s.cursorPos + 1
          else s.cursorPos }
  | _ =>
      if key = "$" then lineEndOp s
      else some s

/-! ## Theorems -/

/-- A `result` line of subtype `success`, as `processJSONLine` receives it. -/
def successLine (m : Msg) : DecodedLine := .result (some m)

/-- A minimal successful result message carrying only a session id. -/
def mkSuccess (sid : String) : Msg :=
  { subtype := "success", sessionID := sid, isError := false, result := ""
    durationMs := 0, numTurns := 0, totalCostUSD := 0, usage := none }

theorem processLines_success_chain (sm : SessionManager) (msgs : List Msg)
    (hs : ∀ m ∈ msgs, m.subtype = "success") :
    (processLines sm (msgs.map successLine)).1.sessionChain =
      sm.sessionChain ++ msgs.map (fun m => m.sessionID) ∧
    (processLines sm (msgs.map successLine)).1.currentSessionID =
      (msgs.map (fun m => m.sessionID)).getLastD sm.currentSessionID := by
  induction msgs generalizing sm with
  | nil => simp [processLines]
  | cons m ms ih =>
      have hm : m.subtype = "success" := hs m (by simp)
      have hrest : ∀ x ∈ ms, x.subtype = "success" := fun x hx => hs x (by simp [hx])
      obtain ⟨ih1, ih2⟩ := ih (updateSessionStats sm m) hrest
      constructor
      · simp only [List.map_cons, processLines, successLine, processJSONLine, hm,
          if_pos]
        rw [ih1]
        simp [updateSessionStats]
      · simp only [List.map_cons, processLines, successLine, processJSONLine, hm,
          if_pos]
        rw [ih2]
        have hcur : (updateSessionStats sm m).currentSessionID = m.sessionID := rfl
        rw [hcur, List.getLastD_cons]

/-- C3: processing any nonempty sequence of successful result lines with
session identifiers `s1..sn` from a fresh session manager leaves the
session chain equal to `[s1,...,sn]` in order and the current session
identifier equal to `sn`. -/
theorem session_chain_tracks_success_results (msgs : List Msg)
    (hs : ∀ m ∈ msgs, m.subtype = "success") (hne : msgs ≠ []) :
    (processLines NewSessionManager (msgs.map successLine)).1.sessionChain =
      msgs.map (fun m => m.sessionID) ∧
    (msgs.map (fun m => m.sessionID)).getLast? =
      some (processLines NewSessionManager (msgs.map successLine)).1.currentSessionID := by
  obtain ⟨h1, h2⟩ := processLines_success_chain NewSessionManager msgs hs
  refine ⟨by simpa [NewSessionManager] using h1, ?_⟩
  rw [h2]
  have hne2 : msgs.map (fun m => m.sessionID) ≠ [] := by
    simpa using hne
  rw [List.getLastD_eq_getLast?]
  cases hl : (msgs.map (fun m => m.sessionID)).getLast? with
  | none => exact absurd (List.getLast?_eq_none_iff.mp hl) hne2
  | some x => rfl

/-- C3 witness: two successful results with identifiers `sA`, `sB`. -/
theorem session_chain_tracks_success_results_witness :
    (∀ m ∈ [mkSuccess "sA", mkSuccess "sB"], m.subtype = "success") ∧
    ([mkSuccess "sA", mkSuccess "sB"] : List Msg) ≠ [] ∧
    (processLines NewSessionManager
      ([mkSuccess "sA", mkSuccess "sB"].map successLine)).1.sessionChain =
        ["sA", "sB"] ∧
    (processLines NewSessionManager
      ([mkSuccess "sA", mkSuccess "sB"].map successLine)).1.currentSessionID =
        "sB" := by
  have h := session_chain_tracks_success_results [mkSuccess "sA", mkSuccess "sB"]
    (by decide) (by decide)
  refine ⟨by decide, by decide, ?_, ?_⟩
  · simpa [mkSuccess] using h.1
  · have h2 := h.2
    simp [mkSuccess] at h2
    simpa using h2.symm

/-! ### C4 — statistics monotonicity -/

/-- All seven cumulative counters of `a` are at most those of `b`. -/
def countersLE (a b : SessionManager) : Prop :=
  a.cumulativeDuration ≤ b.cumulativeDuration ∧
  a.cumulativeTurns ≤ b.cumulativeTurns ∧
  a.cumulativeCost ≤ b.cumulativeCost ∧
  a.cumulativeUsage.inputTokens ≤ b.cumulativeUsage.inputTokens ∧
  a.cumulativeUsage.cacheCreationInputTokens ≤
    b.cumulativeUsage.cacheCreationInputTokens ∧
  a.cumulativeUsage.cacheReadInputTokens ≤
    b.cumulativeUsage.cacheReadInputTokens ∧
  a.cumulativeUsage.outputTokens ≤ b.cumulativeUsage.outputTokens

/-- All seven cumulative counters of `a` are zero. -/
def countersZero (a : SessionManager) : Prop :=
  a.cumulativeDuration = 0 ∧ a.cumulativeTurns = 0 ∧ a.cumulativeCost = 0 ∧
  a.cumulativeUsage = ⟨0, 0, 0, 0⟩

/-- The per-result counter fields are all nonnegative (what the external
protocol produces for durations, turn counts, costs and token counts). -/
def nonnegMsg (m : Msg) : Prop :=
  0 ≤ m.durationMs ∧ 0 ≤ m.numTurns ∧ 0 ≤ m.totalCostUSD ∧
  ∀ u ∈ m.usage, 0 ≤ u.inputTokens ∧ 0 ≤ u.cacheCreationInputTokens ∧
    0 ≤ u.cacheReadInputTokens ∧ 0 ≤ u.outputTokens

/-- The accumulator state after the first `n` of a sequence of result
messages, starting from a fresh session manager. -/
def statsAfter (msgs : List Msg) (n : Nat) : SessionManager :=
  (processLines NewSessionManager ((msgs.take n).map successLine)).1

theorem processLines_append (sm : SessionManager) (xs ys : List DecodedLine) :
    (processLines sm (xs ++ ys)).1 = (processLines (processLines sm xs).1 ys).1 := by
  induction xs generalizing sm with
  | nil => simp [processLines]
  | cons x xs ih => simp [processLines, ih]

theorem updateSessionStats_mono (sm : SessionManager) (m : Msg)
    (hm : nonnegMsg m) : countersLE sm (updateSessionStats sm m) := by
  obtain ⟨h1, h2, h3, h4⟩ := hm
  unfold countersLE updateSessionStats
  cases hu : m.usage with
  | none =>
      simp only [hu]
      exact ⟨by omega, by omega, by linarith, le_refl _, le_refl _, le_refl _, le_refl _⟩
  | some u =>
      obtain ⟨u1, u2, u3, u4⟩ := h4 u (by simp [hu])
      simp only [hu]
      exact ⟨by omega, by omega, by linarith, by omega, by omega, by omega, by omega⟩

/-- C4 (amended): within a conversation each cumulative counter (duration,
turns, cost, four token counters) is non-decreasing across successful
results, provided each result carries nonnegative counter values — the
decoded Go fields are signed, so a stream presenting a negative value
would decrease the counter (see the counterexample) — and
`StartNewConversation` resets all counters to zero together. -/
theorem stats_monotone_nonneg :
    (∀ (msgs : List Msg) (n : Nat),
      (∀ m ∈ msgs, m.subtype = "success") → (∀ m ∈ msgs, nonnegMsg m) →
      countersLE (statsAfter msgs n) (statsAfter msgs (n + 1))) ∧
    (∀ sm : SessionManager, countersZero (StartNewConversation sm).1) := by
  constructor
  · intro msgs n hs hn
    by_cases hlen : n < msgs.length
    · have htake : msgs.take (n + 1) = msgs.take n ++ [msgs[n]] := by
        rw [List.take_succ]
        simp [List.getElem?_eq_getElem hlen]
      unfold statsAfter
      rw [htake, List.map_append, processLines_append]
      have hmem : msgs[n] ∈ msgs := List.getElem_mem hlen
      have hsub : (msgs[n]).subtype = "success" := hs _ hmem
      simp only [List.map_cons, List.map_nil, processLines, successLine,
        processJSONLine, hsub, if_pos]
      exact updateSessionStats_mono _ _ (hn _ hmem)
    · have : msgs.take (n + 1) = msgs.take n := by
        rw [List.take_of_length_le (by omega), List.take_of_length_le (by omega)]
      unfold statsAfter
      rw [this]
      unfold countersLE
      refine ⟨le_refl _, le_refl _, le_refl _, le_refl _, le_refl _, le_refl _, le_refl _⟩
  · intro sm
    unfold countersZero StartNewConversation
    exact ⟨rfl, rfl, rfl, rfl⟩

/-- A successful result with strictly positive counter values. -/
def positiveResult : Msg :=
  { subtype := "success", sessionID := "s", isError := false, result := ""
    durationMs := 7, numTurns := 2, totalCostUSD := 1, usage := some ⟨3, 4, 5, 6⟩ }

/-- C4 witness: one concrete successful result with positive counters. -/
theorem stats_monotone_nonneg_witness :
    (∀ m ∈ [positiveResult], m.subtype = "success") ∧
    (∀ m ∈ [positiveResult], nonnegMsg m) ∧
    countersLE (statsAfter [positiveResult] 0) (statsAfter [positiveResult] 1) := by
  have hn : ∀ m ∈ [positiveResult], nonnegMsg m := by
    intro m hm
    simp only [List.mem_singleton] at hm
    subst hm
    refine ⟨by norm_num [positiveResult], by norm_num [positiveResult],
      by norm_num [positiveResult], ?_⟩
    intro u hu
    simp only [positiveResult, Option.mem_def, Option.some_inj] at hu
    subst hu
    exact ⟨by norm_num, by norm_num, by norm_num, by norm_num⟩
  exact ⟨by decide, hn, stats_monotone_nonneg.1 [positiveResult] 0 (by decide) hn⟩

/-- A syntactically well-formed `success` result whose `num_turns` field is
negative — representable on the wire, decoded into a signed Go `int`. -/
def negativeTurnsResult : Msg :=
  { subtype := "success", sessionID := "s", isError := false, result := ""
    durationMs := 0, numTurns := -1, totalCostUSD := 0, usage := none }

/-- C4 counterexample: the claim quantifies over every sequence of
`success` results, but the decoded counter fields are signed; a result
carrying `num_turns = -1` strictly decreases the cumulative turn counter,
so the counters are not unconditionally monotone. -/
theorem stats_monotone_counterexample :
    (statsAfter [negativeTurnsResult] 1).cumulativeTurns <
      (statsAfter [negativeTurnsResult] 0).cumulativeTurns := by decide

/-! ### C9 — error results -/

/-- C9 (amended): a result line with `is_error = true` whose subtype is not
`"success"` emits exactly one Error event carrying the result's message
text and leaves the entire session manager state (identifier, chain, and
all cumulative statistics) unchanged.  The subtype guard is forced: the
code tests `subtype == "success"` first, so a line carrying both
`subtype = "success"` and `is_error = true` takes the statistics path
instead (see the counterexample). -/
theorem result_error_emits_single_error (sm : SessionManager) (m : Msg)
    (he : m.isError = true) (hs : m.subtype ≠ "success") :
    processJSONLine sm (.result (some m)) =
      (sm, [⟨.error, .err ("result error: " ++ m.result)⟩]) := by
  simp [processJSONLine, hs, he]

/-- A result line that is an error and not a success. -/
def plainErrorResult : Msg :=
  { subtype := "error_during_execution", sessionID := "", isError := true
    result := "task failed", durationMs := 0, numTurns := 0
    totalCostUSD := 0, usage := none }

/-- C9 witness: the concrete error result `task failed`. -/
theorem result_error_emits_single_error_witness :
    plainErrorResult.isError = true ∧ plainErrorResult.subtype ≠ "success" ∧
    processJSONLine NewSessionManager (.result (some plainErrorResult)) =
      (NewSessionManager, [⟨.error, .err "result error: task failed"⟩]) := by
  refine ⟨rfl, by decide, ?_⟩
  have h := result_error_emits_single_error NewSessionManager plainErrorResult
    rfl (by decide)
  exact h

/-- A result line carrying `subtype = "success"` together with
`is_error = true`. -/
def successErrorResult : Msg :=
  { subtype := "success", sessionID := "S1", isError := true, result := "boom"
    durationMs := 0, numTurns := 0, totalCostUSD := 0, usage := none }

/-- C9 counterexample: on a result line with `is_error = true` but
`subtype = "success"`, processing takes the success path: the session
identifier changes (so state is mutated) and no Error event is emitted —
contradicting the claim for this `is_error = true` line. -/
theorem result_error_counterexample :
    (processJSONLine NewSessionManager
      (.result (some successErrorResult))).1.currentSessionID = "S1" ∧
    NewSessionManager.currentSessionID ≠ "S1" ∧
    ∀ e ∈ (processJSONLine NewSessionManager
      (.result (some successErrorResult))).2, e.type ≠ EventType.error := by
  refine ⟨rfl, by decide, by decide⟩

/-! ### C10 — whitespace-only lines -/

/-- C10: a stream line that is empty or all whitespace is skipped before
any decoding: it changes no session-manager field, emits no events, and
processing continues with the next line. -/
theorem blank_line_is_skipped (decode : String → DecodedLine)
    (sm : SessionManager) (line : String) (rest : List String)
    (hb : isBlankLine line = true) :
    processStreamLine decode sm line = (sm, []) ∧
    processStream decode sm (line :: rest) = processStream decode sm rest := by
  constructor
  · simp [processStreamLine, hb]
  · simp [processStream, processStreamLine, hb]

/-- C10 witness: a line of one space and one tab, before a nonempty rest. -/
theorem blank_line_is_skipped_witness :
    isBlankLine " \t" = true ∧
    processStreamLine (fun _ => DecodedLine.otherType) NewSessionManager " \t" =
      (NewSessionManager, []) ∧
    processStream (fun _ => DecodedLine.otherType) NewSessionManager
        [" \t", "rest"] =
      processStream (fun _ => DecodedLine.otherType) NewSessionManager
        ["rest"] := by
  have h := blank_line_is_skipped (fun _ => DecodedLine.otherType)
    NewSessionManager " \t" ["rest"] (by decide)
  exact ⟨by decide, h.1, h.2⟩

/-! ### C1 — tool-execution lifecycle -/

/-- The three-line ingest sequence of the claim: one assistant `tool_use`
element, then two `user` tool-result lines, the second carrying the given
error flag. -/
def toolUseSeq (secondIsError : Bool) : List DecodedLine :=
  [DecodedLine.assistant (some ⟨"msg_1", some [ContentItem.toolUse "Bash"], "tool_use"⟩),
   DecodedLine.user false,
   DecodedLine.user secondIsError]

/-- C1 counterexample: the claim requires the second user result to drive
the tracked ToolExecution to `completed` when its error flag is clear and
to `failed` when it is set — observably different outcomes.  The code
tracks no ToolExecution at all: both runs of the claimed ingest sequence
produce identical final state and identical event streams, and the event
emitted for each user result is the constant ToolActivity string
`tool_execution_progress`, never a running/completed/failed transition. -/
theorem tool_lifecycle_counterexample :
    processLines NewSessionManager (toolUseSeq true) =
      processLines NewSessionManager (toolUseSeq false) ∧
    (processLines NewSessionManager (toolUseSeq true)).2.getLast? =
      some ⟨EventType.toolActivity, EventData.str "tool_execution_progress"⟩ := by
  exact ⟨rfl, rfl⟩

/-- C1 (amended): no ToolExecution state is tracked.  Every `user`
(tool-result) line — whether or not any tool is active, and regardless of
the result's error flag — leaves the session state unchanged and emits
exactly the single ToolActivity event `tool_execution_progress`; in
particular no crash and no orphan state, but also no running/terminal
transition. -/
theorem user_line_emits_constant_activity (sm : SessionManager) (flag : Bool) :
    processJSONLine sm (.user flag) =
      (sm, [⟨EventType.toolActivity, EventData.str "tool_execution_progress"⟩]) := rfl

/-! ### C2 — the always-present UI sink -/

/-- A bus with an attached (empty-queue) UI program and no subscriptions. -/
def noSubscriberBus : EventBus :=
  { subscribers := fun _ => none, program := some [] }

/-- A concrete event published on the bus. -/
def busEvent : Event := ⟨EventType.error, EventData.err "boom"⟩

/-- C2 counterexample: with the UI program sink attached but no subscriber
registered for the event's type, `HandleEvent` hits the early
`if !exists { return }` and never reaches the program send: the UI queue
stays empty, so the event is not forwarded even though the program sink is
attached. -/
theorem ui_sink_counterexample :
    (HandleEvent noSubscriberBus busEvent).program = some [] ∧
    some ([] : List Event) ≠ some [busEvent] := by
  exact ⟨rfl, by simp⟩

/-- C2 (amended): whenever a subscriber list is registered for the event's
type (regardless of how many subscribers it holds or how full their queues
are), `HandleEvent` appends the event to the attached UI program's queue —
the UI sink itself is never subject to drop.  When no subscription exists
for the event's type, `HandleEvent` returns before the program send and
the event is not forwarded to the UI sink. -/
theorem ui_sink_receives_when_type_subscribed (bus : EventBus) (e : Event)
    (qs : List Queue) (msgs : List Event)
    (hsub : bus.subscribers e.type = some qs) (hprog : bus.program = some msgs) :
    (HandleEvent bus e).program = some (msgs ++ [e]) := by
  unfold HandleEvent
  rw [hsub]
  simp [hprog]

/-- A bus whose only subscription for `error` events is a single
zero-capacity (hence always-full) queue, with the UI program attached. -/
def fullQueueBus : EventBus :=
  { subscribers := fun t => if t = EventType.error then some [⟨0, []⟩] else none
    program := some [] }

/-- C2 witness: on a bus whose sole `error` subscriber queue is full, the
published event still reaches the UI program queue. -/
theorem ui_sink_receives_when_type_subscribed_witness :
    fullQueueBus.subscribers busEvent.type = some [⟨0, []⟩] ∧
    fullQueueBus.program = some [] ∧
    (HandleEvent fullQueueBus busEvent).program = some [busEvent] := by
  refine ⟨rfl, rfl, ?_⟩
  exact ui_sink_receives_when_type_subscribed fullQueueBus busEvent [⟨0, []⟩] [] rfl rfl

/-! ### C5 — bounded message history -/

/-- The suffix of at most `n` trailing elements. -/
def keepLast (n : Nat) (l : List ConversationMessage) : List ConversationMessage :=
  l.drop (l.length - n)

theorem appendBounded_eq_keepLast (hist : List ConversationMessage)
    (m : ConversationMessage) :
    appendBounded hist m = keepLast 500 (hist ++ [m]) := by
  simp only [appendBounded, keepLast]
  split
  · rfl
  · next h =>
      have h0 : (hist ++ [m]).length - 500 = 0 := by omega
      rw [h0, List.drop_zero]

theorem keepLast_append_left (a b : List ConversationMessage) :
    keepLast 500 (keepLast 500 a ++ b) = keepLast 500 (a ++ b) := by
  unfold keepLast
  rw [List.drop_append_eq_append_drop, List.drop_append_eq_append_drop,
    List.drop_drop]
  have e1 : a.length - 500 + ((a.drop (a.length - 500) ++ b).length - 500) =
      (a ++ b).length - 500 := by
    simp only [List.length_append, List.length_drop]
    omega
  have e2 : (a.drop (a.length - 500) ++ b).length - 500 -
      (a.drop (a.length - 500)).length = (a ++ b).length - 500 - a.length := by
    simp only [List.length_append, List.length_drop]
    omega
  rw [e1, e2]

theorem appendAll_cons_eq_keepLast (ms : List ConversationMessage) :
    ∀ (hist : List ConversationMessage) (m : ConversationMessage),
      appendAll hist (m :: ms) = keepLast 500 (hist ++ m :: ms) := by
  induction ms with
  | nil =>
      intro hist m
      simp only [appendAll, List.foldl_cons, List.foldl_nil]
      exact appendBounded_eq_keepLast hist m
  | cons m2 ms2 ih =>
      intro hist m
      have step : appendAll hist (m :: m2 :: ms2) =
          appendAll (appendBounded hist m) (m2 :: ms2) := by
        simp [appendAll]
      rw [step, ih, appendBounded_eq_keepLast, keepLast_append_left]
      simp

/-- C5: appending K > 500 messages to any live history leaves exactly the
last 500 appended messages, in arrival order (oldest first), and the
history length is exactly 500. -/
theorem history_bounded_to_last_500 (hist msgs : List ConversationMessage)
    (hK : 500 < msgs.length) :
    appendAll hist msgs = msgs.drop (msgs.length - 500) ∧
    (appendAll hist msgs).length = 500 := by
  obtain ⟨m, ms, rfl⟩ : ∃ m ms, msgs = m :: ms := by
    cases msgs with
    | nil => simp at hK
    | cons m ms => exact ⟨m, ms, rfl⟩
  rw [appendAll_cons_eq_keepLast]
  unfold keepLast
  constructor
  · rw [List.drop_append_eq_append_drop]
    have hnil : hist.drop ((hist ++ m :: ms).length - 500) = [] := by
      apply List.drop_eq_nil_of_le
      simp only [List.length_append]
      omega
    rw [hnil, List.nil_append]
    have e3 : (hist ++ m :: ms).length - 500 - hist.length =
        (m :: ms).length - 500 := by
      simp only [List.length_append]
      omega
    rw [e3]
  · rw [List.length_drop]
    simp only [List.length_append]
    simp only [List.length_cons] at hK ⊢
    omega

/-- A numbered conversation message for concrete history tests. -/
def mkConvMsg (i : Nat) : ConversationMessage :=
  { id := toString i, type := "assistant", content := "m", isError := false
    toolName := "" }

/-- C5 witness: appending 501 messages to an empty history keeps exactly
the last 500. -/
theorem history_bounded_to_last_500_witness :
    500 < ((List.range 501).map mkConvMsg).length ∧
    appendAll [] ((List.range 501).map mkConvMsg) =
      ((List.range 501).map mkConvMsg).drop 1 ∧
    (appendAll [] ((List.range 501).map mkConvMsg)).length = 500 := by
  have hK : 500 < ((List.range 501).map mkConvMsg).length := by
    simp
  have h := history_bounded_to_last_500 [] ((List.range 501).map mkConvMsg) hK
  refine ⟨hK, ?_, h.2⟩
  have hlen : ((List.range 501).map mkConvMsg).length - 500 = 1 := by
    simp
  rw [h.1, hlen]

/-! ### C6 — viewport exactness -/

theorem padTo_length (l : List String) (n : Nat) :
    (padTo l n).length = l.length + (n - l.length) := by
  simp only [padTo, List.length_append, List.length_replicate]

/-- C6 (amended): for every nonempty message list, per-message formatting,
requested scroll offset, and panel height ≥ 3, `renderConversationPanel`
produces exactly `height` display lines — padded with blanks when content
is short, truncated when long.  The two bounds are forced: an empty
message list returns the one-line "No messages yet..." placeholder, and a
height below 3 returns the one-line "Window too small" placeholder (see
the counterexample), so exactness does not hold for every height ≥ 1. -/
theorem render_viewport_exact (fmtMsg : ConversationMessage → List String)
    (messages : List ConversationMessage) (height scrollPos : Nat)
    (hne : messages ≠ []) (hh : 3 ≤ height) :
    (renderConversationPanel fmtMsg messages height scrollPos).1.length = height := by
  unfold renderConversationPanel
  have hlen : ¬ messages.length = 0 := by
    simpa [List.length_eq_zero] using hne
  have hsmall : ¬ height < 3 := by omega
  simp only [hlen, hsmall, if_false]
  split_ifs <;>
    simp only [padTo_length, List.length_take, List.length_drop,
      List.length_append, List.length_cons, List.length_nil] at * <;>
    omega

/-- C6 witness: one message formatted to one line, height 3. -/
theorem render_viewport_exact_witness :
    ([mkConvMsg 0] : List ConversationMessage) ≠ [] ∧ (3 : Nat) ≤ 3 ∧
    (renderConversationPanel (fun m => [m.content]) [mkConvMsg 0] 3 0).1.length = 3 := by
  exact ⟨by decide, by omega,
    render_viewport_exact (fun m => [m.content]) [mkConvMsg 0] 3 0 (by decide)
      (by omega)⟩

/-- C6 counterexample: with no messages and viewport height 5 (≥ 1, as the
claim allows), the panel renders the single placeholder line instead of 5
lines. -/
theorem render_viewport_counterexample :
    (renderConversationPanel (fun m => [m.content]) [] 5 0).1.length = 1 ∧
    (1 : Nat) ≠ 5 := by
  exact ⟨rfl, by omega⟩

/-! ### C7 — the `cw` scenario -/

/-- Normal-mode editor on the buffer `hello world` with the cursor at 0. -/
def cwStart : EditorState :=
  { inputBuffer := "hello world".toList, cursorPos := 0
    inputMode := .normal, commandBuffer := "" }

/-- C7 counterexample: applying `c` then `w` from `cwStart` deletes the
word *and* the one space following it (`deleteWord` takes a trailing space
whenever one is present, per §4.4's own rule), leaving the buffer
`world` — not the claimed `" world"`. -/
theorem cw_scenario_counterexample :
    (handleNormalKey cwStart "c").bind (fun s => handleNormalKey s "w") =
      some { inputBuffer := "world".toList, cursorPos := 0
             inputMode := .insert, commandBuffer := "" } ∧
    "world".toList ≠ " world".toList := by
  exact ⟨by decide, by decide⟩

/-- C7 (amended): in Normal mode with buffer `hello world` and cursor at
index 0, the two-key command `cw` switches to Insert mode and leaves the
buffer equal to `world` (the word and its one trailing space removed)
with the cursor at index 0. -/
theorem cw_scenario :
    (handleNormalKey cwStart "c").bind (fun s => handleNormalKey s "w") =
      some { inputBuffer := "world".toList, cursorPos := 0
             inputMode := .insert, commandBuffer := "" } := by decide

/-! ### C8 — editor totality and cursor bounds -/

/-- The Normal-mode cursor range `[0, max(0, len-1)]` (block cursor on a
character); `Nat` subtraction makes `len - 1` exactly `max(0, len-1)`. -/
def normalModeBound (s : EditorState) : Prop :=
  s.cursorPos ≤ s.inputBuffer.length - 1

/-- The Insert-mode cursor range `[0, len]`. -/
def insertModeBound (s : EditorState) : Prop :=
  s.cursorPos ≤ s.inputBuffer.length

instance normalModeBoundDecidable (s : EditorState) :
    Decidable (normalModeBound s) :=
  inferInstanceAs (Decidable (s.cursorPos ≤ s.inputBuffer.length - 1))

instance insertModeBoundDecidable (s : EditorState) :
    Decidable (insertModeBound s) :=
  inferInstanceAs (Decidable (s.cursorPos ≤ s.inputBuffer.length))

theorem countWhile_le (p : Char → Bool) (l : List Char) :
    countWhile p l ≤ l.length := by
  induction l with
  | nil => simp [countWhile]
  | cons ch rest ih =>
      simp only [countWhile, List.length_cons]
      split <;> omega

theorem skipWord_le (buf : List Char) (c : Nat) (h : c ≤ buf.length) :
    skipWord buf c ≤ buf.length := by
  have := countWhile_le (fun ch => ch ≠ ' ') (buf.drop c)
  simp only [List.length_drop] at this
  simp only [skipWord]
  omega

theorem skipSpaces_le (buf : List Char) (c : Nat) (h : c ≤ buf.length) :
    skipSpaces buf c ≤ buf.length := by
  have := countWhile_le (fun ch => ch = ' ') (buf.drop c)
  simp only [List.length_drop] at this
  simp only [skipSpaces]
  omega

theorem backSkipSpaces_safe (buf : List Char) (c : Nat) (h : c < buf.length) :
    ∃ r, backSkipSpaces buf c = some r ∧ r ≤ c := by
  induction c with
  | zero => exact ⟨0, rfl, le_refl 0⟩
  | succ c ih =>
      have hch : buf[c + 1]? = some buf[c + 1] := List.getElem?_eq_getElem h
      by_cases hsp : buf[c + 1] = ' '
      · obtain ⟨r, hr, hle⟩ := ih (by omega)
        refine ⟨r, ?_, by omega⟩
        simp only [backSkipSpaces, hch]
        simp [hsp, hr]
      · refine ⟨c + 1, ?_, le_refl _⟩
        simp only [backSkipSpaces, hch]
        simp [hsp]

theorem backToWordStart_safe (buf : List Char) (c : Nat) (h : c ≤ buf.length) :
    ∃ r, backToWordStart buf c = some r ∧ r ≤ c := by
  induction c with
  | zero => exact ⟨0, rfl, le_refl 0⟩
  | succ c ih =>
      have hlt : c < buf.length := by omega
      have hch : buf[c]? = some buf[c] := List.getElem?_eq_getElem hlt
      by_cases hsp : buf[c] = ' '
      · refine ⟨c + 1, ?_, le_refl _⟩
        simp only [backToWordStart, hch]
        simp [hsp]
      · obtain ⟨r, hr, hle⟩ := ih (by omega)
        refine ⟨r, ?_, by omega⟩
        simp only [backToWordStart, hch]
        simp [hsp, hr]

/-- C8 (amended): every modal-editor operation, started from a cursor
inside its mode's valid range, returns a result (no panic / out-of-bounds
access: the `Option`-modelled indexing never fails) with the cursor again
inside the valid range — `[0, len]` after a character insert (Insert
mode), `[0, max(0, len-1)]` for the Normal-mode operations.  The claim's
quantification over *every* cursor index is too strong: from an
out-of-range cursor, `moveWordBackward` dereferences past the end of the
buffer (a Go slice-index panic — see the counterexample), and the guarded
no-op paths of other operations leave an out-of-range cursor where it is. -/
theorem editor_ops_safe_in_range :
    (∀ (s : EditorState) (ch : Char),
      ∃ t, insertCharOp s ch = some t ∧ insertModeBound t) ∧
    (∀ s : EditorState, normalModeBound s →
      ∃ t, deleteCharOp s = some t ∧ normalModeBound t) ∧
    (∀ s : EditorState, normalModeBound s →
      ∃ t, deleteWordOp s = some t ∧ normalModeBound t) ∧
    (∀ s : EditorState, normalModeBound s →
      ∃ t, moveWordForwardOp s = some t ∧ normalModeBound t) ∧
    (∀ s : EditorState, normalModeBound s →
      ∃ t, moveWordBackwardOp s = some t ∧ normalModeBound t) ∧
    (∀ s : EditorState, ∃ t, lineStartOp s = some t ∧ normalModeBound t) ∧
    (∀ s : EditorState, ∃ t, lineEndOp s = some t ∧ normalModeBound t) := by
  refine ⟨?_, ?_, ?_, ?_, ?_, ?_, ?_⟩
  · -- insertChar
    intro s ch
    by_cases h : s.inputBuffer.length ≤ s.cursorPos
    · exact ⟨_, by simp [insertCharOp, h]; rfl,
        by simp only [insertModeBound, List.length_append, List.length_cons,
          List.length_nil]; omega⟩
    · have hc : s.cursorPos ≤ s.inputBuffer.length := by omega
      exact ⟨_, by simp [insertCharOp, h, sliceTo, sliceFrom, hc]; rfl,
        by simp only [insertModeBound, List.length_append, List.length_take,
          List.length_cons, List.length_nil, List.length_drop]; omega⟩
  · -- delete char (`x`)
    intro s hs
    simp only [normalModeBound] at hs
    by_cases h : s.cursorPos < s.inputBuffer.length
    · have hc : s.cursorPos ≤ s.inputBuffer.length := by omega
      have hc1 : s.cursorPos + 1 ≤ s.inputBuffer.length := by omega
      exact ⟨_, by simp [deleteCharOp, h, sliceTo, sliceFrom, hc, hc1]; rfl,
        by simp only [normalModeBound]; split_ifs <;>
          simp only [List.length_append, List.length_take, List.length_drop]
            at * <;> omega⟩
    · exact ⟨s, by simp [deleteCharOp, h],
        by simp only [normalModeBound]; omega⟩
  · -- deleteWord
    intro s hs
    simp only [normalModeBound] at hs
    by_cases h : s.inputBuffer.length ≤ s.cursorPos
    · exact ⟨s, by simp [deleteWordOp, h],
        by simp only [normalModeBound]; omega⟩
    · have hsk : skipWord s.inputBuffer s.cursorPos ≤ s.inputBuffer.length :=
        skipWord_le _ _ (by omega)
      have hc2 : (if s.inputBuffer[skipWord s.inputBuffer s.cursorPos]? =
          some ' ' then skipWord s.inputBuffer s.cursorPos + 1
          else skipWord s.inputBuffer s.cursorPos) ≤ s.inputBuffer.length := by
        split
        · next hg =>
            have hlt : skipWord s.inputBuffer s.cursorPos <
                s.inputBuffer.length := by
              by_contra hge
              rw [List.getElem?_eq_none (by omega)] at hg
              exact Option.noConfusion hg
            omega
        · exact hsk
      have hcur : s.cursorPos ≤ s.inputBuffer.length := by omega
      have hskc : s.cursorPos ≤ skipWord s.inputBuffer s.cursorPos := by
        simp only [skipWord]; omega
      exact ⟨_, by simp [deleteWordOp, h, sliceTo, sliceFrom, hcur, hc2]; rfl,
        by simp only [normalModeBound]; split_ifs <;>
          simp only [List.length_append, List.length_take, List.length_drop]
            at * <;> omega⟩
  · -- moveWordForward
    intro s hs
    simp only [normalModeBound] at hs
    by_cases h : s.inputBuffer.length ≤ s.cursorPos
    · exact ⟨s, by simp [moveWordForwardOp, h],
        by simp only [normalModeBound]; omega⟩
    · have hsk : skipSpaces s.inputBuffer (skipWord s.inputBuffer s.cursorPos) ≤
          s.inputBuffer.length :=
        skipSpaces_le _ _ (skipWord_le _ _ (by omega))
      exact ⟨_, by simp [moveWordForwardOp, h]; rfl,
        by simp only [normalModeBound]; split_ifs <;> omega⟩
  · -- moveWordBackward
    intro s hs
    simp only [normalModeBound] at hs
    by_cases h : s.cursorPos ≤ 0
    · exact ⟨s, by simp [moveWordBackwardOp, h],
        by simp only [normalModeBound]; omega⟩
    · have hlen : s.cursorPos - 1 < s.inputBuffer.length := by omega
      obtain ⟨r1, hr1, hle1⟩ :=
        backSkipSpaces_safe s.inputBuffer (s.cursorPos - 1) hlen
      obtain ⟨r2, hr2, hle2⟩ :=
        backToWordStart_safe s.inputBuffer r1 (by omega)
      have heq : moveWordBackwardOp s = some { s with cursorPos := r2 } := by
        simp [moveWordBackwardOp, h, hr1, hr2]
      exact ⟨_, heq, by simp only [normalModeBound]; omega⟩
  · -- line start (`0`)
    intro s
    exact ⟨_, rfl, by simp [normalModeBound, lineStartOp]⟩
  · -- line end (`$`)
    intro s
    exact ⟨_, rfl, by simp only [normalModeBound, lineEndOp]; split <;> omega⟩

/-- Normal-mode editor on the buffer `ab cd` with the cursor at 1. -/
def rangeWitnessState : EditorState :=
  { inputBuffer := "ab cd".toList, cursorPos := 1
    inputMode := .normal, commandBuffer := "" }

/-- C8 witness: the Normal-mode buffer `ab cd` with cursor 1; deleting the
word at the cursor succeeds and leaves the cursor in range. -/
theorem editor_ops_safe_in_range_witness :
    normalModeBound rangeWitnessState ∧
    ∃ t, deleteWordOp rangeWitnessState = some t ∧ normalModeBound t :=
  ⟨by decide, editor_ops_safe_in_range.2.2.1 rangeWitnessState (by decide)⟩

/-- Normal-mode editor on the buffer `ab` with the out-of-range cursor 5. -/
def oobCursorState : EditorState :=
  { inputBuffer := "ab".toList, cursorPos := 5
    inputMode := .normal, commandBuffer := "" }

/-- C8 counterexample: the claim quantifies over every cursor index, but
on buffer `ab` with cursor index 5, `moveWordBackward` executes
`a.inputBuffer[4]` — in Go a slice-index panic, modelled as `none` — so
the operations are not total over every buffer/cursor combination. -/
theorem editor_totality_counterexample :
    moveWordBackwardOp oobCursorState = none := by decide

end CCI
